import Mathlib

/-!
Verification development for the untrunc repair-orchestration pipeline.

The definitions below are shallow embeddings of the Python sources:

* `src/batch-pipeline/lambda/lambda_function.py` —
  `select_reference_file`, `calculate_resources`, `validate_fargate_resources`,
  and the constant tables `RESOURCE_TIERS`, `FARGATE_VALID_COMBOS`.
* `src/edge-service/app/scanner.py` —
  `_select_reference_file`, `_is_stable`, `_invoke_aws_fallback`, and the
  copy-reference-to-export step of `scan_once`.
* `src/edge-service/app/untrunc_runner.py` — `run_untrunc`.

Modelling conventions:
* Python's `sorted` (a stable sort) is embedded as `List.insertionSort`,
  which is also stable; byte sizes are `Nat`; wall-clock times and
  fractional vCPU counts are `ℚ`; S3 `last_modified` ISO timestamps are
  `String` compared lexicographically, exactly as the source compares them.
* Filesystem state is an association list from path to file size; the
  external tool's behaviour (what it writes, how it exits) is a parameter.
* `int()` truncation of a nonnegative Python float is `Int.floor ∘ toNat`
  on the exact rational value.
-/

/-- A video file as listed from S3 by the batch lambda: `key`, `size`
(bytes) and `last_modified` (ISO-8601 string, compared lexicographically). -/
structure VFile where
  key : String
  size : Nat
  lastModified : String
deriving DecidableEq, Repr

/-- Ordering used by `sorted(files, key=lambda f: f["size"])`. -/
def sizeLeV : VFile → VFile → Prop := fun a b => a.size ≤ b.size

instance : DecidableRel sizeLeV := fun a b => Nat.decLe a.size b.size

/-- Ordering used by `sorted(files, key=lambda f: f["last_modified"], reverse=True)`:
a stable descending sort places `a` no later than `b` iff `b.lastModified ≤ a.lastModified`. -/
def newestLeV : VFile → VFile → Prop := fun a b => b.lastModified ≤ a.lastModified

instance : DecidableRel newestLeV :=
  fun a b => inferInstanceAs (Decidable (b.lastModified ≤ a.lastModified))

/-- A stable candidate file as seen by the edge scanner: path plus the
`stat` attributes the selector reads (`st_size`, `st_mtime`). -/
structure SFile where
  path : String
  size : Nat
  mtime : ℚ
deriving DecidableEq, Repr

/-- Ordering used by `sorted(candidates, key=lambda p: p.stat().st_size)`. -/
def sizeLeS : SFile → SFile → Prop := fun a b => a.size ≤ b.size

instance : DecidableRel sizeLeS := fun a b => Nat.decLe a.size b.size

/-- Ordering used by the scanner's `newest` branch (stable descending mtime sort). -/
def newestLeS : SFile → SFile → Prop := fun a b => b.mtime ≤ a.mtime

instance : DecidableRel newestLeS :=
  fun a b => inferInstanceAs (Decidable (b.mtime ≤ a.mtime))

/-- First minimum of `l` under the key `k`: the element returned by
`sorted(l, key=k)[0]` for a stable sort. Used to reason about the head of
`List.insertionSort`. -/
def argminFirst (k : α → Nat) : List α → Option α
  | [] => none
  | x :: xs =>
    match argminFirst k xs with
    | none => some x
    | some y => if k x ≤ k y then some x else some y

theorem argminFirst_eq_none_iff (k : α → Nat) (l : List α) :
    argminFirst k l = none ↔ l = [] := by
  cases l with
  | nil => simp [argminFirst]
  | cons x xs =>
    simp only [argminFirst]
    cases argminFirst k xs with
    | none => simp
    | some y =>
      constructor
      · intro h
        by_cases hxy : k x ≤ k y <;> simp [hxy] at h
      · intro h
        exact absurd h (by simp)

theorem head?_insertionSort_eq_argminFirst (k : α → Nat)
    (r : α → α → Prop) [DecidableRel r] (hr : ∀ a b, r a b ↔ k a ≤ k b) (l : List α) :
    (List.insertionSort r l).head? = argminFirst k l := by
  induction l with
  | nil => rfl
  | cons a l ih =>
    rw [List.insertionSort]
    cases hs : List.insertionSort r l with
    | nil =>
      rw [hs] at ih
      simp only [List.head?] at ih
      rw [List.orderedInsert]
      simp [argminFirst, ← ih]
    | cons y ys =>
      rw [hs] at ih
      simp only [List.head?] at ih
      rw [List.orderedInsert]
      by_cases h : r a y
      · have hk : k a ≤ k y := (hr a y).mp h
        simp [h, argminFirst, ← ih, hk]
      · have hk : ¬ k a ≤ k y := fun hc => h ((hr a y).mpr hc)
        simp [h, argminFirst, ← ih, hk]

theorem argminFirst_le (k : α → Nat) (l : List α) (x : α)
    (h : argminFirst k l = some x) : ∀ y ∈ l, k x ≤ k y := by
  induction l generalizing x with
  | nil => simp [argminFirst] at h
  | cons a l ih =>
    simp only [argminFirst] at h
    cases hl : argminFirst k l with
    | none =>
      rw [hl] at h
      have : x = a := by simpa using h.symm
      subst this
      intro y hy
      rcases List.mem_cons.mp hy with rfl | hy
      · exact Nat.le_refl _
      · rw [(argminFirst_eq_none_iff k l).mp hl] at hy
        simp at hy
    | some z =>
      rw [hl] at h
      by_cases haz : k a ≤ k z
      · simp only [haz, if_true] at h
        have : x = a := by simpa using h.symm
        subst this
        intro y hy
        rcases List.mem_cons.mp hy with rfl | hy
        · exact Nat.le_refl _
        · exact Nat.le_trans haz (ih z hl y hy)
      · simp only [haz, if_false] at h
        have : x = z := by simpa using h.symm
        subst this
        intro y hy
        rcases List.mem_cons.mp hy with rfl | hy
        · exact Nat.le_of_lt (Nat.lt_of_not_le haz)
        · exact ih x hl y hy

theorem argminFirst_first (k : α → Nat) (l : List α) (x : α)
    (h : argminFirst k l = some x) :
    ∃ l₁ l₂, l = l₁ ++ x :: l₂ ∧ ∀ y ∈ l₁, k x < k y := by
  induction l generalizing x with
  | nil => simp [argminFirst] at h
  | cons a l ih =>
    simp only [argminFirst] at h
    cases hl : argminFirst k l with
    | none =>
      rw [hl] at h
      have : x = a := by simpa using h.symm
      subst this
      exact ⟨[], l, rfl, by simp⟩
    | some z =>
      rw [hl] at h
      by_cases haz : k a ≤ k z
      · simp only [haz, if_true] at h
        have : x = a := by simpa using h.symm
        subst this
        exact ⟨[], l, rfl, by simp⟩
      · simp only [haz, if_false] at h
        have : x = z := by simpa using h.symm
        subst this
        obtain ⟨l₁, l₂, hdec, hlt⟩ := ih x hl
        refine ⟨a :: l₁, l₂, by rw [hdec]; rfl, ?_⟩
        intro y hy
        rcases List.mem_cons.mp hy with rfl | hy
        · exact Nat.lt_of_not_le haz
        · exact hlt y hy

/-- Reference selection by configured strategy, as in the tail of
`select_reference_file` (`lambda_function.py`, lines 160-176): empty list
gives `None`; `smallest` sorts ascending by size and takes the head key;
`newest` sorts descending by `last_modified`; any other strategy string
falls into the final `else`, which repeats the `smallest` logic. -/
def selectByStrategy (files : List VFile) (strategy : String) : Option String :=
  if files = [] then none
  else if strategy = "smallest" then
    (List.insertionSort sizeLeV files).head?.map VFile.key
  else if strategy = "newest" then
    (List.insertionSort newestLeV files).head?.map VFile.key
  else
    (List.insertionSort sizeLeV files).head?.map VFile.key

/-- Embedding of `select_reference_file` (`lambda_function.py`, lines
135-176). A truthy `explicit_ref` (a non-empty string) that occurs among
the listed keys wins; otherwise the strategy logic runs. -/
def select_reference_file (files : List VFile) (strategy : String)
    (explicitRef : Option String) : Option String :=
  match explicitRef with
  | some r =>
    if r ≠ "" ∧ files.any (fun f => f.key == r) then some r
    else selectByStrategy files strategy
  | none => selectByStrategy files strategy

/-- Embedding of `DirectoryScanner._select_reference_file` (`scanner.py`,
lines 96-128): empty and singleton candidate sets give `None`; otherwise
the configured strategy picks the head of a stable sort, with any
unrecognized strategy falling into the `else` that repeats `smallest`. -/
def scanner_select_reference_file (candidates : List SFile)
    (strategy : String) : Option SFile :=
  if candidates = [] then none
  else if candidates.length = 1 then none
  else if strategy = "smallest" then
    (List.insertionSort sizeLeS candidates).head?
  else if strategy = "newest" then
    (List.insertionSort newestLeS candidates).head?
  else
    (List.insertionSort sizeLeS candidates).head?

/-- C1 counterexample: the batch lambda's `select_reference_file`, applied to a
candidate set of exactly one file with strategy `smallest` and no explicit
override, returns that file's key rather than none, so the claim as stated
fails on `lambda_function.py` (its caller separately rejects such batches). -/
theorem select_reference_file_singleton_counterexample :
    select_reference_file [⟨"clip.mp4", 100, "2024-01-01T00:00:00"⟩] "smallest" none
      = some "clip.mp4" := by
  decide

/-- C1 amended: the edge scanner's selector returns none for every candidate
set of size 0 or 1 under every strategy, and the batch lambda's selector
returns none for the empty set under every strategy and override; for a
singleton set the lambda selector instead returns the lone key, and only its
caller's minimum-candidate guard keeps such batches from producing jobs. -/
theorem reference_selector_small_candidate_sets (cands : List SFile)
    (strategy strategy2 : String) (explicitRef : Option String)
    (h : cands.length ≤ 1) :
    scanner_select_reference_file cands strategy = none ∧
      select_reference_file [] strategy2 explicitRef = none := by
  constructor
  · match cands with
    | [] => simp [scanner_select_reference_file]
    | [c] => simp [scanner_select_reference_file]
    | c₁ :: c₂ :: cs => simp at h
  · match explicitRef with
    | none => simp [select_reference_file, selectByStrategy]
    | some r => simp [select_reference_file, selectByStrategy]

/-- C1 witness at a concrete singleton candidate set. -/
theorem reference_selector_small_candidate_sets_witness :
    scanner_select_reference_file [⟨"a.mp4", 7, 5⟩] "newest" = none ∧
      select_reference_file [] "smallest" (some "x.mp4") = none :=
  reference_selector_small_candidate_sets [⟨"a.mp4", 7, 5⟩] "newest"
    "smallest" (some "x.mp4") (by decide)

/-- C6: with at least two candidates, strategy `smallest` and no explicit
override, both selectors pick a member of the input whose size is a minimum,
and among equal-size minima the first one in the input ordering: everything
strictly before the chosen file in the input list is strictly larger. -/
theorem smallest_strategy_picks_first_minimum (files : List VFile)
    (cands : List SFile) (hf : 2 ≤ files.length) (hc : 2 ≤ cands.length) :
    (∃ f l₁ l₂, select_reference_file files "smallest" none = some f.key ∧
        files = l₁ ++ f :: l₂ ∧ (∀ g ∈ files, f.size ≤ g.size) ∧
        (∀ g ∈ l₁, f.size < g.size)) ∧
    (∃ c m₁ m₂, scanner_select_reference_file cands "smallest" = some c ∧
        cands = m₁ ++ c :: m₂ ∧ (∀ g ∈ cands, c.size ≤ g.size) ∧
        (∀ g ∈ m₁, c.size < g.size)) := by
  constructor
  · have hne : files ≠ [] := by
      intro h; rw [h] at hf; simp at hf
    cases hm : argminFirst VFile.size files with
    | none => exact absurd ((argminFirst_eq_none_iff _ _).mp hm) hne
    | some f =>
      refine ⟨f, ?_⟩
      obtain ⟨l₁, l₂, hdec, hlt⟩ := argminFirst_first VFile.size files f hm
      refine ⟨l₁, l₂, ?_, hdec, argminFirst_le VFile.size files f hm, hlt⟩
      rw [select_reference_file, selectByStrategy, if_neg hne, if_pos rfl,
        head?_insertionSort_eq_argminFirst VFile.size sizeLeV (fun a b => Iff.rfl) files,
        hm]
      rfl
  · have hne : cands ≠ [] := by
      intro h; rw [h] at hc; simp at hc
    have hone : ¬ cands.length = 1 := by omega
    cases hm : argminFirst SFile.size cands with
    | none => exact absurd ((argminFirst_eq_none_iff _ _).mp hm) hne
    | some c =>
      refine ⟨c, ?_⟩
      obtain ⟨m₁, m₂, hdec, hlt⟩ := argminFirst_first SFile.size cands c hm
      refine ⟨m₁, m₂, ?_, hdec, argminFirst_le SFile.size cands c hm, hlt⟩
      rw [scanner_select_reference_file, if_neg hne, if_neg hone, if_pos rfl,
        head?_insertionSort_eq_argminFirst SFile.size sizeLeS (fun a b => Iff.rfl) cands,
        hm]

/-- C6 witness on the spec's scenario-A shaped inputs: sizes 100, 10, 50
select the 10-byte file in both selectors. -/
theorem smallest_strategy_picks_first_minimum_witness :
    (∃ (f : VFile) (l₁ l₂ : List VFile),
      select_reference_file
          [⟨"a.mp4", 100, "t1"⟩, ⟨"b.mp4", 10, "t2"⟩, ⟨"c.mp4", 50, "t3"⟩]
          "smallest" none = some f.key ∧
        [⟨"a.mp4", 100, "t1"⟩, ⟨"b.mp4", 10, "t2"⟩, ⟨"c.mp4", 50, "t3"⟩]
          = l₁ ++ f :: l₂ ∧
        (∀ g ∈ [VFile.mk "a.mp4" 100 "t1", ⟨"b.mp4", 10, "t2"⟩, ⟨"c.mp4", 50, "t3"⟩],
          f.size ≤ g.size) ∧
        (∀ g ∈ l₁, f.size < g.size)) ∧
    (∃ (c : SFile) (m₁ m₂ : List SFile),
      scanner_select_reference_file [⟨"x.mp4", 30, 1⟩, ⟨"y.mp4", 30, 2⟩]
          "smallest" = some c ∧
        [⟨"x.mp4", 30, 1⟩, ⟨"y.mp4", 30, 2⟩] = m₁ ++ c :: m₂ ∧
        (∀ g ∈ [SFile.mk "x.mp4" 30 1, ⟨"y.mp4", 30, 2⟩], c.size ≤ g.size) ∧
        (∀ g ∈ m₁, c.size < g.size)) :=
  smallest_strategy_picks_first_minimum
    [⟨"a.mp4", 100, "t1"⟩, ⟨"b.mp4", 10, "t2"⟩, ⟨"c.mp4", 50, "t3"⟩]
    [⟨"x.mp4", 30, 1⟩, ⟨"y.mp4", 30, 2⟩] (by decide) (by decide)

/-- C8: a strategy string that is neither `smallest` nor `newest` makes both
selectors behave exactly as they do for `smallest`, for every candidate set
and (for the lambda) every explicit override. -/
theorem unrecognized_strategy_falls_back_to_smallest (files : List VFile)
    (cands : List SFile) (strategy : String) (explicitRef : Option String)
    (h1 : strategy ≠ "smallest") (h2 : strategy ≠ "newest") :
    select_reference_file files strategy explicitRef
        = select_reference_file files "smallest" explicitRef ∧
      scanner_select_reference_file cands strategy
        = scanner_select_reference_file cands "smallest" := by
  have hsel : selectByStrategy files strategy = selectByStrategy files "smallest" := by
    rw [selectByStrategy, selectByStrategy]
    by_cases hne : files = [] <;> simp [hne, h1, h2]
  constructor
  · match explicitRef with
    | none => simpa [select_reference_file] using hsel
    | some r =>
      rw [select_reference_file, select_reference_file]
      by_cases hr : r ≠ "" ∧ files.any (fun f => f.key == r) <;> simp [hr, hsel]
  · rw [scanner_select_reference_file, scanner_select_reference_file]
    by_cases hne : cands = []
    · simp [hne]
    · by_cases hone : cands.length = 1 <;> simp [hne, hone, h1, h2]

/-- C8 witness: the strategy string `alphabetical` behaves as `smallest`. -/
theorem unrecognized_strategy_falls_back_to_smallest_witness :
    select_reference_file [⟨"a.mp4", 9, "t1"⟩, ⟨"b.mp4", 4, "t2"⟩]
        "alphabetical" none
      = select_reference_file [⟨"a.mp4", 9, "t1"⟩, ⟨"b.mp4", 4, "t2"⟩]
        "smallest" none ∧
    scanner_select_reference_file [⟨"x.mp4", 3, 1⟩, ⟨"y.mp4", 8, 2⟩]
        "alphabetical"
      = scanner_select_reference_file [⟨"x.mp4", 3, 1⟩, ⟨"y.mp4", 8, 2⟩]
        "smallest" :=
  unrecognized_strategy_falls_back_to_smallest
    [⟨"a.mp4", 9, "t1"⟩, ⟨"b.mp4", 4, "t2"⟩] [⟨"x.mp4", 3, 1⟩, ⟨"y.mp4", 8, 2⟩]
    "alphabetical" none (by decide) (by decide)

/-- Embedding of `FARGATE_VALID_COMBOS` (`lambda_function.py`, lines 65-73),
listed in ascending vCPU order — the source stores it as a dict and sorts the
keys before scanning, which yields exactly this order. Memory values are MB;
the `4`, `8` and `16` vCPU rows are Python `range` calls with steps 1024,
4096 and 8192. -/
def FARGATE_VALID_COMBOS : List (ℚ × List ℕ) :=
  [((1 : ℚ) / 4, [512, 1024, 2048]),
   ((1 : ℚ) / 2, [1024, 2048, 3072, 4096]),
   (1, [2048, 3072, 4096, 5120, 6144, 7168, 8192]),
   (2, [4096, 5120, 6144, 7168, 8192, 9216, 10240, 11264, 12288, 13312,
        14336, 15360, 16384]),
   (4, (List.range 23).map (fun i => 8192 + 1024 * i)),
   (8, (List.range 12).map (fun i => 16384 + 4096 * i)),
   (16, (List.range 12).map (fun i => 32768 + 8192 * i))]

/-- Combo row chosen by the first loop of `validate_fargate_resources`: the
first grid vCPU tier at or above the request, or the last row (16 vCPU) when
the request exceeds every tier; the list is nonempty so the `getLastD`
default is never used. -/
def fargateCombo (vcpu : ℚ) : ℚ × List ℕ :=
  (FARGATE_VALID_COMBOS.find? (fun p => decide (vcpu ≤ p.1))).getD
    (FARGATE_VALID_COMBOS.getLastD (0, []))

/-- Embedding of `validate_fargate_resources` (`lambda_function.py`, lines
225-256): snap the vCPU request to `fargateCombo`, then pick the first
memory value in that row at or above the request, or the row's last value
when the request exceeds them all. The source finally renders the vCPU
count as a string for the Batch API; the numeric pair is returned here. -/
def validate_fargate_resources (vcpu : ℚ) (memory : ℕ) : ℚ × ℕ :=
  let combo := fargateCombo vcpu
  (combo.1, (combo.2.find? (fun m => decide (memory ≤ m))).getD
    (combo.2.getLastD 0))

/-- C2 counterexample: requests beyond the grid are clamped down, not up:
a 32-vCPU request snaps to 16 vCPU, and a 10000 MB request at 1 vCPU snaps
to 8192 MB, so the snap does under-provision on out-of-grid requests. -/
theorem fargate_snap_clamps_down_counterexample :
    (validate_fargate_resources 32 1).1 < 32 ∧
      (validate_fargate_resources 1 10000).2 < 10000 := by
  have hnone : FARGATE_VALID_COMBOS.find? (fun p => decide ((32 : ℚ) ≤ p.1)) = none := by
    rw [List.find?_eq_none]
    intro p hp
    simp only [FARGATE_VALID_COMBOS, List.mem_cons, List.not_mem_nil, or_false] at hp
    rcases hp with rfl | rfl | rfl | rfl | rfl | rfl | rfl <;> norm_num
  have hc32 : fargateCombo 32
      = ((16 : ℚ), (List.range 12).map (fun i => 32768 + 8192 * i)) := by
    rw [fargateCombo, hnone]; rfl
  have hc1 : fargateCombo 1 = ((1 : ℚ), [2048, 3072, 4096, 5120, 6144, 7168, 8192]) := by
    rw [fargateCombo]
    rw [show FARGATE_VALID_COMBOS
        = ((1 : ℚ) / 4, [512, 1024, 2048]) :: ((1 : ℚ) / 2, [1024, 2048, 3072, 4096]) ::
          ((1 : ℚ), [2048, 3072, 4096, 5120, 6144, 7168, 8192]) :: FARGATE_VALID_COMBOS.drop 3
      from rfl]
    rw [List.find?_cons_of_neg _ (by norm_num), List.find?_cons_of_neg _ (by norm_num),
      List.find?_cons_of_pos _ (by norm_num)]
    rfl
  constructor
  · rw [validate_fargate_resources]
    rw [hc32]
    norm_num
  · rw [validate_fargate_resources]
    rw [hc1]
    norm_num [List.find?]

theorem getLastD_mem (l : List α) (d : α) (h : l ≠ []) : l.getLastD d ∈ l := by
  induction l generalizing d with
  | nil => exact absurd rfl h
  | cons a l ih =>
    rw [List.getLastD_cons]
    cases l with
    | nil => simp [List.getLastD]
    | cons b m => exact List.mem_cons_of_mem a (ih b (by simp))

theorem fargate_combos_snd_nonempty :
    ∀ p ∈ FARGATE_VALID_COMBOS, p.2 ≠ [] := by
  intro p hp
  simp only [FARGATE_VALID_COMBOS, List.mem_cons, List.not_mem_nil, or_false] at hp
  rcases hp with rfl | rfl | rfl | rfl | rfl | rfl | rfl <;> simp [List.range_succ]

theorem fargateCombo_mem (vcpu : ℚ) : fargateCombo vcpu ∈ FARGATE_VALID_COMBOS := by
  rw [fargateCombo]
  cases h : FARGATE_VALID_COMBOS.find? (fun p => decide (vcpu ≤ p.1)) with
  | some p =>
    simpa using List.mem_of_find?_eq_some h
  | none =>
    simp only [Option.getD_none]
    rw [show FARGATE_VALID_COMBOS.getLastD (0, [])
        = ((16 : ℚ), (List.range 12).map (fun i => 32768 + 8192 * i)) from rfl]
    simp [FARGATE_VALID_COMBOS]

/-- C4: for every requested pair the snapped output lies on the Fargate
grid: the snapped vCPU heads a row of `FARGATE_VALID_COMBOS` and the
snapped memory is one of that row's allowed values. -/
theorem fargate_snapped_pair_on_grid (vcpu : ℚ) (memory : ℕ) :
    ∃ p ∈ FARGATE_VALID_COMBOS,
      (validate_fargate_resources vcpu memory).1 = p.1 ∧
        (validate_fargate_resources vcpu memory).2 ∈ p.2 := by
  refine ⟨fargateCombo vcpu, fargateCombo_mem vcpu, rfl, ?_⟩
  simp only [validate_fargate_resources]
  cases h : (fargateCombo vcpu).2.find? (fun m => decide (memory ≤ m)) with
  | some m =>
    simpa using List.mem_of_find?_eq_some h
  | none =>
    simp only [Option.getD_none]
    exact getLastD_mem _ 0 (fargate_combos_snd_nonempty _ (fargateCombo_mem vcpu))

/-- C2 amended: the two-step snap rounds up whenever the request is within
the grid's range — a vCPU request at most the largest tier (16) snaps to at
least itself, and a memory request at most the snapped row's largest
allowed value snaps to at least itself; a request beyond the grid is
instead clamped down to the largest available value. -/
theorem fargate_snap_rounds_up_within_grid (vcpu : ℚ) (memory : ℕ)
    (hv : vcpu ≤ 16) :
    vcpu ≤ (validate_fargate_resources vcpu memory).1 ∧
      (memory ≤ (fargateCombo vcpu).2.getLastD 0 →
        memory ≤ (validate_fargate_resources vcpu memory).2) := by
  constructor
  · simp only [validate_fargate_resources, fargateCombo]
    cases h : FARGATE_VALID_COMBOS.find? (fun p => decide (vcpu ≤ p.1)) with
    | some p =>
      simp only [Option.getD_some]
      have hp := @List.find?_some _ (fun q => decide (vcpu ≤ q.1)) p
        FARGATE_VALID_COMBOS h
      exact of_decide_eq_true hp
    | none =>
      simp only [Option.getD_none]
      rw [show ((FARGATE_VALID_COMBOS.getLastD (0, [])).1 : ℚ) = 16 from rfl]
      exact hv
  · intro hm
    simp only [validate_fargate_resources]
    cases h : (fargateCombo vcpu).2.find? (fun m => decide (memory ≤ m)) with
    | some m =>
      simp only [Option.getD_some]
      have hp := @List.find?_some _ (fun x => decide (memory ≤ x)) m
        (fargateCombo vcpu).2 h
      exact of_decide_eq_true hp
    | none =>
      simp only [Option.getD_none]
      exact hm

/-- C2 witness at the in-grid request (3 vCPU, 9000 MB). -/
theorem fargate_snap_rounds_up_within_grid_witness :
    (3 : ℚ) ≤ (validate_fargate_resources 3 9000).1 ∧
      (9000 ≤ (fargateCombo 3).2.getLastD 0 →
        9000 ≤ (validate_fargate_resources 3 9000).2) :=
  fargate_snap_rounds_up_within_grid 3 9000 (by norm_num)

/-- Embedding of `RESOURCE_TIERS` (`lambda_function.py`, lines 54-61):
`(max_total_gb, vcpu, memory_mb, storage_gb)` rows in ascending order. -/
def RESOURCE_TIERS : List (ℕ × ℕ × ℕ × ℕ) :=
  [(5, 1, 2048, 30), (20, 2, 4096, 60), (50, 4, 8192, 120),
   (100, 4, 16384, 175), (200, 8, 30720, 200)]

/-- Tier lookup loop of `calculate_resources`: the first tier whose
threshold is at least `total_gb`, else the pre-loop defaults `(8, 30720, 200)`. -/
def tierFor (total_gb : ℚ) : ℕ × ℕ × ℕ :=
  match RESOURCE_TIERS.find? (fun t => decide (total_gb ≤ (t.1 : ℚ))) with
  | some t => t.2
  | none => (8, 30720, 200)

theorem tierFor_eq (g : ℚ) : tierFor g =
    if g ≤ 5 then (1, 2048, 30)
    else if g ≤ 20 then (2, 4096, 60)
    else if g ≤ 50 then (4, 8192, 120)
    else if g ≤ 100 then (4, 16384, 175)
    else (8, 30720, 200) := by
  rw [tierFor, RESOURCE_TIERS]
  by_cases h5 : g ≤ 5 <;> by_cases h20 : g ≤ 20 <;> by_cases h50 : g ≤ 50 <;>
    by_cases h100 : g ≤ 100 <;> by_cases h200 : g ≤ 200 <;>
    simp [List.find?, h5, h20, h50, h100, h200]

theorem tierFor_mono (g1 g2 : ℚ) (h : g1 ≤ g2) :
    (tierFor g1).2.1 ≤ (tierFor g2).2.1 ∧ (tierFor g1).2.2 ≤ (tierFor g2).2.2 := by
  rw [tierFor_eq, tierFor_eq]
  split_ifs <;> constructor <;> (try norm_num) <;> linarith

/-- Embedding of `calculate_resources` (`lambda_function.py`, lines
179-222), returning `(vcpu, memory_mb, storage_gb)`. Byte counts are
converted to GB exactly in `ℚ`; Python's `int()` truncation of the
nonnegative products is `Int.floor` followed by `toNat`. -/
def calculate_resources (total_bytes largest_file_bytes : ℕ) : ℕ × ℕ × ℕ :=
  let total_gb : ℚ := (total_bytes : ℚ) / 1024 ^ 3
  let largest_gb : ℚ := (largest_file_bytes : ℚ) / 1024 ^ 3
  let tier := tierFor total_gb
  let min_memory_for_largest : ℕ := (Int.floor (largest_gb * 2 * 1024)).toNat
  let final_memory := max tier.2.1 min_memory_for_largest
  let min_storage_for_largest : ℕ := (Int.floor (largest_gb * 3)).toNat + 10
  let final_storage := max tier.2.2 min_storage_for_largest
  (tier.1, min final_memory 122880, min final_storage 200)

/-- C5: with the largest-file size held fixed, raising `total_bytes` never
lowers the memory or the storage computed by the sizing engine. -/
theorem calculate_resources_monotonic (tb1 tb2 largest : ℕ) (h : tb1 ≤ tb2) :
    (calculate_resources tb1 largest).2.1 ≤ (calculate_resources tb2 largest).2.1 ∧
      (calculate_resources tb1 largest).2.2 ≤ (calculate_resources tb2 largest).2.2 := by
  have hg : ((tb1 : ℚ) / 1024 ^ 3) ≤ ((tb2 : ℚ) / 1024 ^ 3) := by
    gcongr
  obtain ⟨hm, hs⟩ := tierFor_mono _ _ hg
  simp only [calculate_resources]
  exact ⟨min_le_min (max_le_max hm le_rfl) le_rfl,
    min_le_min (max_le_max hs le_rfl) le_rfl⟩

/-- C5 witness at 4 GB versus 30 GB of input with an 8 GiB largest file. -/
theorem calculate_resources_monotonic_witness :
    (calculate_resources 4294967296 8589934592).2.1
        ≤ (calculate_resources 32212254720 8589934592).2.1 ∧
      (calculate_resources 4294967296 8589934592).2.2
        ≤ (calculate_resources 32212254720 8589934592).2.2 :=
  calculate_resources_monotonic 4294967296 32212254720 8589934592 (by norm_num)

/-- Entry of the scanner's `_known` map (`scanner.py` `FileState`): the
last observed size and mtime plus the time the path was first seen. -/
structure FileState where
  size : ℕ
  mtime : ℚ
  firstSeen : ℚ
deriving DecidableEq, Repr

/-- The scanner's `_known` map, as an association list from path to state. -/
def KnownMap : Type := List (String × FileState)

def kmLookup (m : KnownMap) (p : String) : Option FileState :=
  (List.find? (fun e => e.1 == p) m).map Prod.snd

/-- Overwriting insert, modelling `self._known[path] = current`. -/
def kmInsert (m : KnownMap) (p : String) (st : FileState) : KnownMap :=
  (p, st) :: List.filter (fun e => ¬ e.1 == p) m

/-- Removal, modelling `self._known.pop(path, None)`. -/
def kmErase (m : KnownMap) (p : String) : KnownMap :=
  List.filter (fun e => ¬ e.1 == p) m

/-- Embedding of `DirectoryScanner._is_stable` (`scanner.py`, lines 60-94).
`statRes` is the outcome of `path.stat()` — `none` when it raises `OSError`,
otherwise the observed `(st_size, st_mtime)`; `now` is `time.time()`. The
result pairs the returned boolean with the updated `_known` map. -/
def is_stable (known : KnownMap) (path : String) (statRes : Option (ℕ × ℚ))
    (now : ℚ) (minAge : ℕ) : Bool × KnownMap :=
  match statRes with
  | none => (false, known)
  | some (sz, mtime) =>
    if now - mtime < (minAge : ℚ) then (false, known)
    else
      let current : FileState := ⟨sz, mtime, now⟩
      match kmLookup known path with
      | none => (false, kmInsert known path current)
      | some prev =>
        if prev.size ≠ sz ∨ prev.mtime ≠ mtime then (false, kmInsert known path current)
        else (true, known)

/-- C9: a path with no prior entry in the stability-tracking map is never
classified stable on the current pass, whatever its observed size, mtime,
age or the configured minimum age. -/
theorem first_observation_never_stable (known : KnownMap) (path : String)
    (statRes : Option (ℕ × ℚ)) (now : ℚ) (minAge : ℕ)
    (h : kmLookup known path = none) :
    (is_stable known path statRes now minAge).1 = false := by
  match statRes with
  | none => rfl
  | some (sz, mtime) =>
    rw [is_stable]
    by_cases hage : now - mtime < (minAge : ℚ)
    · simp [hage]
    · simp [hage, h]

/-- C9 witness: an old, large file seen for the first time is not stable. -/
theorem first_observation_never_stable_witness :
    (is_stable [] "cam/a.mp4" (some (900000, 50)) 1000 60).1 = false :=
  first_observation_never_stable [] "cam/a.mp4" (some (900000, 50)) 1000 60 rfl

/-- Flat filesystem model: an association list from path to file size in
bytes. Directories are not modelled (`mkdir` has no effect on it). -/
def Fs : Type := List (String × ℕ)

def fsLookup (fs : Fs) (p : String) : Option ℕ :=
  (List.find? (fun e => e.1 == p) fs).map Prod.snd

/-- Deletion, modelling `path.unlink()` of the mapped file. -/
def fsErase (fs : Fs) (p : String) : Fs :=
  List.filter (fun e => ¬ e.1 == p) fs

/-- Creation or overwrite of a file of size `sz` at `p`. -/
def fsWrite (fs : Fs) (p : String) (sz : ℕ) : Fs :=
  (p, sz) :: fsErase fs p

theorem fsLookup_fsWrite_self (fs : Fs) (p : String) (sz : ℕ) :
    fsLookup (fsWrite fs p sz) p = some sz := by
  simp [fsLookup, fsWrite, List.find?]

theorem fsLookup_fsWrite_ne (fs : Fs) (p q : String) (sz : ℕ) (h : q ≠ p) :
    fsLookup (fsWrite fs p sz) q = fsLookup fs q := by
  simp only [fsLookup, fsWrite, fsErase, List.find?]
  have hq : (p == q) = false := by
    simp only [beq_eq_false_iff_ne, ne_eq]
    exact fun hc => h hc.symm
  rw [hq]
  induction fs with
  | nil => rfl
  | cons e fs ih =>
    by_cases he : e.1 == p
    · have hep : e.1 = p := by simpa using he
      have heq : (e.1 == q) = false := by
        simp only [beq_eq_false_iff_ne, ne_eq, hep]
        exact fun hc => h hc.symm
      simp only [List.filter, he, Bool.not_true, List.find?, heq]
      exact ih
    · have hne : (¬ e.1 == p) = true := by simp [he]
      simp only [List.filter, hne]
      cases hq2 : e.1 == q with
      | true => simp [List.find?, hq2]
      | false => simp only [List.find?, hq2]; exact ih

theorem fsLookup_fsErase_self (fs : Fs) (p : String) :
    fsLookup (fsErase fs p) p = none := by
  simp only [fsLookup, fsErase]
  induction fs with
  | nil => rfl
  | cons e fs ih =>
    by_cases he : e.1 == p
    · simp only [List.filter, he, Bool.not_true]
      exact ih
    · have hne : (¬ e.1 == p) = true := by simp [he]
      simp only [List.filter, hne, List.find?, he]
      exact ih

/-- Copy-reference-to-export step at the end of `scan_once` (`scanner.py`,
lines 233-244): if nothing exists at the reference's mirrored export path,
the reference is copied there with `shutil.copy2` — a copy, not a move —
and an `OSError` from the copy (modelled by `copyOk = false`) leaves the
filesystem unchanged; the source file is never removed or altered. -/
def copy_reference_to_export (fs : Fs) (ref refDst : String) (copyOk : Bool) : Fs :=
  if (fsLookup fs refDst).isSome then fs
  else
    match fsLookup fs ref with
    | some sz => if copyOk then fsWrite fs refDst sz else fs
    | none => fs

/-- C10: after the post-batch copy step the reference file still exists
unchanged at its ready-location path, the export copy is created only when
no file already existed at the mirrored path, and a pre-existing file at
the mirrored path leaves the filesystem untouched. -/
theorem reference_copied_not_moved (fs : Fs) (ref refDst : String)
    (copyOk : Bool) (sz : ℕ) (hne : ref ≠ refDst) (href : fsLookup fs ref = some sz) :
    fsLookup (copy_reference_to_export fs ref refDst copyOk) ref = some sz ∧
      (fsLookup fs refDst = none → copyOk = true →
        fsLookup (copy_reference_to_export fs ref refDst copyOk) refDst = some sz) ∧
      ((fsLookup fs refDst).isSome → copy_reference_to_export fs ref refDst copyOk = fs) := by
  refine ⟨?_, ?_, ?_⟩
  · rw [copy_reference_to_export]
    by_cases hdst : (fsLookup fs refDst).isSome
    · rw [if_pos hdst]; exact href
    · rw [if_neg hdst, href]
      cases copyOk with
      | false => simpa using href
      | true =>
        show fsLookup (fsWrite fs refDst sz) ref = some sz
        rw [fsLookup_fsWrite_ne fs refDst ref sz hne]
        exact href
  · intro hnone hok
    rw [copy_reference_to_export]
    have hdst : ¬ (fsLookup fs refDst).isSome := by simp [hnone]
    rw [if_neg hdst, href, hok]
    show fsLookup (fsWrite fs refDst sz) refDst = some sz
    exact fsLookup_fsWrite_self fs refDst sz
  · intro hdst
    rw [copy_reference_to_export, if_pos hdst]

/-- C10 witness on a two-file filesystem with an empty export mirror. -/
theorem reference_copied_not_moved_witness :
    fsLookup (copy_reference_to_export [("ready/r.mp4", 5000), ("ready/a.mp4", 9000)]
        "ready/r.mp4" "export/r.mp4" true) "ready/r.mp4" = some 5000 ∧
      (fsLookup [("ready/r.mp4", 5000), ("ready/a.mp4", 9000)] "export/r.mp4" = none →
        true = true →
        fsLookup (copy_reference_to_export [("ready/r.mp4", 5000), ("ready/a.mp4", 9000)]
          "ready/r.mp4" "export/r.mp4" true) "export/r.mp4" = some 5000) ∧
      ((fsLookup [("ready/r.mp4", 5000), ("ready/a.mp4", 9000)] "export/r.mp4").isSome →
        copy_reference_to_export [("ready/r.mp4", 5000), ("ready/a.mp4", 9000)]
          "ready/r.mp4" "export/r.mp4" true = [("ready/r.mp4", 5000), ("ready/a.mp4", 9000)]) :=
  reference_copied_not_moved [("ready/r.mp4", 5000), ("ready/a.mp4", 9000)]
    "ready/r.mp4" "export/r.mp4" true 5000 (by decide) (by decide)

/-- Retry loop of `_invoke_aws_fallback` (`scanner.py`, lines 288-333),
written with the number of remaining attempts as fuel so it computes
structurally. `attemptOk i` tells whether the `POST` of attempt index `i`
succeeds (2xx) — `false` covers both HTTP-status and transport errors;
`jitter i` is the value `random.uniform(0, 1)` drawn before the sleep that
follows attempt `i`. The result is `(delivered, network calls made, list
of waits slept between attempts)`; a wait is `2 ^ attempt + jitter attempt`
and is skipped after the final attempt. -/
def fallbackLoop (attemptOk : ℕ → Bool) (jitter : ℕ → ℚ) :
    (remaining attempt : ℕ) → Bool × ℕ × List ℚ
  | 0, _ => (false, 0, [])
  | remaining + 1, attempt =>
    if attemptOk attempt then (true, 1, [])
    else if remaining = 0 then (false, 1, [])
    else
      let rest := fallbackLoop attemptOk jitter remaining (attempt + 1)
      (rest.1, rest.2.1 + 1, ((2 : ℚ) ^ attempt + jitter attempt) :: rest.2.2)

/-- Embedding of `_invoke_aws_fallback` (`scanner.py`, lines 252-333).
`baseUrl` models `settings.aws_repair_api_base_url`; Python treats both
`None` and the empty string as unconfigured and short-circuits to a
failed dispatch with no network call. Otherwise the retry loop runs for
`maxRetries` attempts. -/
def invoke_aws_fallback (baseUrl : Option String) (maxRetries : ℕ)
    (attemptOk : ℕ → Bool) (jitter : ℕ → ℚ) : Bool × ℕ × List ℚ :=
  if baseUrl.getD "" = "" then (false, 0, [])
  else fallbackLoop attemptOk jitter maxRetries 0

theorem fallbackLoop_all_fail (attemptOk : ℕ → Bool) (jitter : ℕ → ℚ)
    (hfail : ∀ i, attemptOk i = false) :
    ∀ remaining attempt, 1 ≤ remaining →
      fallbackLoop attemptOk jitter remaining attempt
        = (false, remaining,
            (List.range (remaining - 1)).map
              (fun i => (2 : ℚ) ^ (attempt + i) + jitter (attempt + i))) := by
  intro remaining
  induction remaining with
  | zero => intro attempt h; simp at h
  | succ n ih =>
    intro attempt _
    rw [fallbackLoop]
    rw [hfail attempt]
    simp only [Bool.false_eq_true, if_false]
    cases n with
    | zero => simp
    | succ m =>
      have hne : ¬ (m + 1 = 0) := by omega
      rw [if_neg hne]
      rw [ih (attempt + 1) (by omega)]
      simp only [Nat.add_sub_cancel, Nat.succ_sub_one]
      refine congrArg (fun l => (false, m + 1 + 1, l)) ?_
      rw [List.range_succ_eq_map]
      simp only [List.map_cons, List.map_map, Nat.add_zero]
      refine congrArg (fun l => ((2 : ℚ) ^ attempt + jitter attempt) :: l) ?_
      refine List.map_congr_left ?_
      intro i hi
      simp only [Function.comp]
      rw [show attempt + 1 + i = attempt + (i + 1) by omega]

/-- C7: with a configured endpoint and every attempt failing, the dispatcher
makes exactly `maxRetries` network calls, reports non-delivery, and sleeps
exactly between consecutive attempts (not after the last), each wait being
`2 ^ attempt + jitter` with the jitter drawn from `[0, 1)`; with an
unconfigured endpoint (`None` or empty string) it reports non-delivery
after zero network calls. -/
theorem fallback_exhausts_exactly_max_attempts (url : String) (maxRetries : ℕ)
    (attemptOk : ℕ → Bool) (jitter : ℕ → ℚ) (hurl : url ≠ "")
    (hmax : 1 ≤ maxRetries) (hfail : ∀ i, attemptOk i = false)
    (hjit : ∀ i, 0 ≤ jitter i ∧ jitter i < 1) :
    invoke_aws_fallback (some url) maxRetries attemptOk jitter
        = (false, maxRetries,
            (List.range (maxRetries - 1)).map (fun i => (2 : ℚ) ^ i + jitter i)) ∧
      (∀ w ∈ (List.range (maxRetries - 1)).map (fun i => (2 : ℚ) ^ i + jitter i),
        ∃ i, w = 2 ^ i + jitter i ∧ (2 : ℚ) ^ i ≤ w ∧ w < 2 ^ i + 1) ∧
      invoke_aws_fallback none maxRetries attemptOk jitter = (false, 0, []) ∧
      invoke_aws_fallback (some "") maxRetries attemptOk jitter = (false, 0, []) := by
  refine ⟨?_, ?_, rfl, rfl⟩
  · rw [invoke_aws_fallback]
    rw [if_neg (by simpa using hurl)]
    have h := fallbackLoop_all_fail attemptOk jitter hfail maxRetries 0 hmax
    simpa using h
  · intro w hw
    simp only [List.mem_map, List.mem_range] at hw
    obtain ⟨i, _, rfl⟩ := hw
    refine ⟨i, rfl, ?_, ?_⟩
    · have := (hjit i).1
      linarith
    · have := (hjit i).2
      linarith

/-- C7 witness with three failing attempts against a configured endpoint. -/
theorem fallback_exhausts_exactly_max_attempts_witness :
    invoke_aws_fallback (some "https://api.example.com") 3 (fun _ => false)
        (fun _ => 1 / 2)
        = (false, 3, (List.range 2).map (fun i => (2 : ℚ) ^ i + 1 / 2)) ∧
      (∀ w ∈ (List.range 2).map (fun i => (2 : ℚ) ^ i + 1 / 2),
        ∃ i, w = 2 ^ i + 1 / 2 ∧ (2 : ℚ) ^ i ≤ w ∧ w < 2 ^ i + 1) ∧
      invoke_aws_fallback none 3 (fun _ => false) (fun _ => 1 / 2) = (false, 0, []) ∧
      invoke_aws_fallback (some "") 3 (fun _ => false) (fun _ => 1 / 2)
        = (false, 0, []) :=
  fallback_exhausts_exactly_max_attempts "https://api.example.com" 3
    (fun _ => false) (fun _ => 1 / 2) (by decide) (by norm_num)
    (fun _ => rfl) (fun _ => by norm_num)

/-- Reverse of the characters of the `_fixed` stem marker. -/
def fixedRev : List Char := ['d', 'e', 'x', 'i', 'f', '_']

/-- Insert the marker after the first `.` of a reversed file-name component
(the last `.` of the original component). -/
def insertFixedAfterDot : List Char → List Char
  | [] => []
  | c :: cs => if c == '.' then c :: (fixedRev ++ cs) else c :: insertFixedAfterDot cs

/-- The auto-derived alternate output path some untrunc builds produce:
`input_path.parent / (input_path.stem + "_fixed" + input_path.suffix)`
(`untrunc_runner.py`, line 166), for regular file names whose final
component does not begin with a dot. -/
def autoFixedPath (p : String) : String :=
  let r := p.data.reverse
  let comp := r.takeWhile (fun c => ¬ c == '/')
  let rest := r.dropWhile (fun c => ¬ c == '/')
  let comp2 :=
    if comp.any (fun c => c == '.') then insertFixedAfterDot comp
    else fixedRev ++ comp
  ⟨(comp2 ++ rest).reverse⟩

/-- Error classification of `UntruncRepairError` raises in `run_untrunc`. -/
inductive RepairErr where
  | inputMissing
  | referenceMissing
  | binaryMissing
  | timeout
  | toolFailure
  | missingOutput
  | implausibleOutput
deriving DecidableEq, Repr

/-- Outcome of one `run_untrunc` call: success or a raised classification. -/
inductive RepairResult where
  | ok
  | err (e : RepairErr)
deriving DecidableEq, Repr

/-- How the external untrunc process behaved: killed by the timeout, or
ran to completion with the given exit code. -/
inductive ToolOutcome where
  | timeout
  | exited (code : Int)
deriving DecidableEq, Repr

/-- One run of the external tool: the files it wrote (in order, possibly a
truncated prefix of its work when killed) and how it ended. The tool is an
opaque external collaborator, so its behaviour is a parameter. -/
structure ToolRun where
  writes : List (String × ℕ)
  outcome : ToolOutcome

def applyWrites (fs : Fs) (ws : List (String × ℕ)) : Fs :=
  ws.foldl (fun a e => fsWrite a e.1 e.2) fs

/-- Final validation of `run_untrunc` (`untrunc_runner.py`, lines 175-181):
the output must exist and hold at least 1024 bytes; a smaller output is
unlinked and the call fails with the implausible-output classification. -/
def validateOutput (fs : Fs) (output : String) : RepairResult × Fs :=
  match fsLookup fs output with
  | some sz =>
    if sz < 1024 then (.err .implausibleOutput, fsErase fs output)
    else (.ok, fs)
  | none => (.err .missingOutput, fs)

/-- Embedding of `run_untrunc` (`untrunc_runner.py`, lines 56-193).
Precondition checks (input and reference exist, binary resolvable) come
first and leave the filesystem untouched (`mkdir` of the output parent is
invisible in the flat file map). The tool's writes then land; a timeout or
nonzero exit raises with the filesystem exactly as the tool left it. On
exit 0, a missing output at the requested destination is fetched from the
auto-derived `_fixed` path if present (`shutil.move`), and validation
rejects and unlinks an implausibly small output. The wall-clock timeout
value itself does not appear: `ToolOutcome.timeout` states its effect. -/
def run_untrunc (fs : Fs) (input output reference : String) (binFound : Bool)
    (tool : ToolRun) : RepairResult × Fs :=
  if fsLookup fs input = none then (.err .inputMissing, fs)
  else if fsLookup fs reference = none then (.err .referenceMissing, fs)
  else if ¬ binFound then (.err .binaryMissing, fs)
  else
    let fs1 := applyWrites fs tool.writes
    match tool.outcome with
    | .timeout => (.err .timeout, fs1)
    | .exited c =>
      if c ≠ 0 then (.err .toolFailure, fs1)
      else
        match fsLookup fs1 output with
        | some _ => validateOutput fs1 output
        | none =>
          match fsLookup fs1 (autoFixedPath input) with
          | some sz =>
            validateOutput (fsWrite (fsErase fs1 (autoFixedPath input)) output sz) output
          | none => (.err .missingOutput, fs1)

/-- C3 counterexample: when the tool writes a 500-byte file at the
destination and then exits nonzero, `run_untrunc` fails with the
tool-failure classification but the 500-byte output remains at the
destination path — the executor inspects the output only on exit 0. -/
theorem run_untrunc_leaves_small_output_counterexample :
    (run_untrunc [("in.mp4", 5000), ("ref.mp4", 2000)] "in.mp4" "out.mp4"
        "ref.mp4" true ⟨[("out.mp4", 500)], .exited 1⟩).1 = .err .toolFailure ∧
      fsLookup (run_untrunc [("in.mp4", 5000), ("ref.mp4", 2000)] "in.mp4"
        "out.mp4" "ref.mp4" true ⟨[("out.mp4", 500)], .exited 1⟩).2 "out.mp4"
        = some 500 := by
  decide

theorem validateOutput_cases (fs : Fs) (output : String) :
    (validateOutput fs output).1 = .ok ∨
      fsLookup (validateOutput fs output).2 output = none := by
  rw [validateOutput]
  split
  · split
    · right
      exact fsLookup_fsErase_self fs output
    · left
      rfl
  · rename_i heq
    right
    exact heq

/-- C3 amended: after a failed call that reached final output validation —
the classifications `missingOutput` and `implausibleOutput`, raised only
when the tool ran to completion with exit 0 — no file remains at the
destination path at all (a missing output stays missing; a small one,
whether found at the destination or relocated from the `_fixed` alternate
path, is unlinked). After a timeout or nonzero-exit failure the destination
is left exactly as the external tool left it, so a partial file smaller
than 1024 bytes can remain there. -/
theorem failed_validation_leaves_no_output (fs : Fs)
    (input output reference : String) (binFound : Bool) (tool : ToolRun) :
    ((run_untrunc fs input output reference binFound tool).1
          = .err .implausibleOutput ∨
        (run_untrunc fs input output reference binFound tool).1
          = .err .missingOutput) →
      fsLookup (run_untrunc fs input output reference binFound tool).2 output
        = none := by
  rw [run_untrunc]
  split
  · intro h
    rcases h with h | h <;> simp at h
  split
  · intro h
    rcases h with h | h <;> simp at h
  split
  · intro h
    rcases h with h | h <;> simp at h
  simp only []
  split
  · intro h
    rcases h with h | h <;> simp at h
  split
  · intro h
    rcases h with h | h <;> simp at h
  split
  · intro h
    rcases validateOutput_cases (applyWrites fs tool.writes) output with hok | hnone
    · rcases h with h | h <;> (rw [hok] at h; simp at h)
    · exact hnone
  split
  · rename_i sz heq
    intro h
    rcases validateOutput_cases
        (fsWrite (fsErase (applyWrites fs tool.writes) (autoFixedPath input))
          output sz) output with hok | hnone
    · rcases h with h | h <;> (rw [hok] at h; simp at h)
    · exact hnone
  · intro h
    assumption

/-- C3 witness: a tool run that exits 0 having written only a 200-byte
output at the destination fails implausible-output and leaves nothing
there. -/
theorem failed_validation_leaves_no_output_witness :
    fsLookup (run_untrunc [("in.mp4", 5000), ("ref.mp4", 2000)] "in.mp4"
        "out.mp4" "ref.mp4" true ⟨[("out.mp4", 200)], .exited 0⟩).2 "out.mp4"
      = none :=
  failed_validation_leaves_no_output [("in.mp4", 5000), ("ref.mp4", 2000)]
    "in.mp4" "out.mp4" "ref.mp4" true ⟨[("out.mp4", 200)], .exited 0⟩
    (Or.inl (by decide))
